import Mathlib

/-!
A shallow embedding of `0x02-redis_basic/exercise.py`: an instrumented
key-value cache (a `Cache` facade over Redis, `count_calls` / `call_history`
decorators, and a `replay` utility).

Modelling conventions:

* Byte strings (Python `bytes`, and the byte payloads Redis stores) are
  modelled as Lean `String`s; the utf-8 encoding of text is modelled as the
  identity.  All data this program manipulates (uuid keys, qualnames,
  serialized argument tuples, decimal counters) is ASCII, where this is exact.
* The Redis database is modelled as two finite maps (string keys and list
  keys).  Real Redis has a single typed keyspace; the program's key families
  (uuid value keys, qualname counter keys, `:inputs` / `:outputs` list keys)
  are kept type-disjoint by the program itself.
* `uuid.uuid4()` is nondeterministic, so the fresh key is passed to `store`
  as an explicit parameter; runs of several calls take a list of keys.
* `method.__qualname__` is passed to the decorators as an explicit string
  parameter (the source reads it reflectively; `functools.wraps` preserves
  it through the decorator stack, so both decorators of `store` see
  `"Cache.store"`).
* Python exceptions are modelled with `Except PyErr`; a method's Redis side
  effects performed before a raise persist, so a method returns its final
  state *together with* an `Except` outcome.
-/


/-- The decimal digit value of a character, `none` when it is not an ASCII
digit (`'0'`..`'9'` are code points 48..57). -/
def digitVal? (c : Char) : Option (Fin 10) :=
  if h : 48 ≤ c.toNat ∧ c.toNat ≤ 57 then some ⟨c.toNat - 48, by omega⟩ else none

/-- The ASCII character of a decimal digit. -/
def digitChr (d : Nat) : Char := Char.ofNat (48 + d)

/-- Big-endian decimal digit characters of a natural number, as Python's
`str` renders it (`0` renders as `"0"`). -/
def natChars (n : Nat) : List Char :=
  if n = 0 then [digitChr 0] else ((Nat.digits 10 n).reverse).map digitChr

/-- Consume leading decimal digits, accumulating their value left to right. -/
def parseDigitsAux : List Char → Nat → Nat × List Char
  | [], acc => (acc, [])
  | c :: cs, acc =>
    match digitVal? c with
    | some d => parseDigitsAux cs (acc * 10 + d.val)
    | none => (acc, c :: cs)

/-- Parse a nonempty run of leading decimal digits; `none` when the input
does not start with a digit. -/
def parseNat? (cs : List Char) : Option (Nat × List Char) :=
  match cs with
  | [] => none
  | c :: cs' =>
    match digitVal? c with
    | some d => some (parseDigitsAux cs' d.val)
    | none => none

/-- Python `str()` of an `int`: an optional minus sign then decimal digits. -/
def pyIntStr (n : Int) : String :=
  if n < 0 then ⟨'-' :: natChars n.natAbs⟩ else ⟨natChars n.toNat⟩

/-- Parse an entire character list as a decimal natural number. -/
def parseNatAll (cs : List Char) : Option Nat :=
  match parseNat? cs with
  | some (n, []) => some n
  | _ => none

/-- Python `int()` applied to a decimal text (an optional sign then digits).
`none` models a raised `ValueError`.  The full builtin also strips
whitespace and accepts underscores; the program only ever parses the
sign-and-digits forms it produced itself. -/
def pyIntParse (s : String) : Option Int :=
  match s.data with
  | [] => none
  | c :: rest =>
    if c = '-' then (parseNatAll rest).map (fun n => -(n : Int))
    else if c = '+' then (parseNatAll rest).map (fun n => (n : Int))
    else (parseNatAll (c :: rest)).map (fun n => (n : Int))

/-- A finite Python float as its decimal rendering denotes it: a sign, an
integer part and a list of fraction digits (value `±(ip + 0.frac)`).
`repr` of a finite float prints exactly such a form (e.g. `2.5`, `-0.125`,
`3.0`); the exponent notation used for extreme magnitudes and the `inf` /
`nan` specials are outside this model. -/
structure PyFloat where
  neg : Bool
  ip : Nat
  frac : List (Fin 10)
  deriving DecidableEq

/-- The characters of Python `repr()` of a float: optional sign, integer
part, a decimal point, fraction digits. -/
def floatChars (f : PyFloat) : List Char :=
  (if f.neg then ['-'] else []) ++ natChars f.ip ++ '.' :: f.frac.map (fun d => digitChr d.val)

/-- Python `repr()` (equally `str()`) of a float. -/
def pyFloatRepr (f : PyFloat) : String := ⟨floatChars f⟩

/-- Parse a run of fraction digits; every character must be a digit. -/
def parseFrac : List Char → Option (List (Fin 10))
  | [] => some []
  | c :: cs =>
    match digitVal? c with
    | some d => (parseFrac cs).map (fun l => d :: l)
    | none => none

/-- Parse an unsigned decimal float (integer digits, then optionally a
decimal point and fraction digits). -/
def parseUnsignedFloat (cs : List Char) (neg : Bool) : Option PyFloat :=
  match parseNat? cs with
  | none => none
  | some (ip, rest) =>
    match rest with
    | [] => some ⟨neg, ip, []⟩
    | r :: fracCs =>
      if r = '.' then (parseFrac fracCs).map (fun l => ⟨neg, ip, l⟩) else none

/-- Python `float()` applied to a plain decimal text.  `none` models a
raised `ValueError`.  The builtin also accepts exponent notation, specials
and surrounding whitespace; the program only ever parses the plain decimal
forms `repr` produced. -/
def pyFloatParse (s : String) : Option PyFloat :=
  match s.data with
  | [] => none
  | c :: rest =>
    if c = '-' then parseUnsignedFloat rest true
    else if c = '+' then parseUnsignedFloat rest false
    else parseUnsignedFloat (c :: rest) false

/-- A Python value of the facade's supported union `str | bytes | int | float`.
Byte strings are modelled as Lean `String`s (utf-8 modelled as identity). -/
inductive PyVal where
  | vstr (s : String)
  | vbytes (b : String)
  | vint (n : Int)
  | vfloat (f : PyFloat)
  deriving DecidableEq

/-- The Python exceptions the embedded code can raise. -/
inductive PyErr where
  | attributeError
  | typeError
  | valueError
  deriving DecidableEq

/-- The single-quote character. -/
def quoteChr : Char := Char.ofNat 39

/-- The backslash character. -/
def backslashChr : Char := Char.ofNat 92

/-- Escaping of one character inside a Python single-quoted string/bytes
literal (backslash, quote, newline, carriage return, tab; other
non-printables, which the program never produces, are left literal). -/
def pyCharEscape (c : Char) : List Char :=
  if c = backslashChr then [backslashChr, backslashChr]
  else if c = quoteChr then [backslashChr, quoteChr]
  else if c = Char.ofNat 10 then [backslashChr, 'n']
  else if c = Char.ofNat 13 then [backslashChr, 'r']
  else if c = Char.ofNat 9 then [backslashChr, 't']
  else [c]

/-- The characters of a Python single-quoted string literal of `s`. -/
def pyStrLitChars (s : String) : List Char :=
  quoteChr :: (s.data.map pyCharEscape).flatten ++ [quoteChr]

/-- Python `repr()` of a value. -/
def pyRepr : PyVal → String
  | .vstr s => ⟨pyStrLitChars s⟩
  | .vbytes b => ⟨'b' :: pyStrLitChars b⟩
  | .vint n => pyIntStr n
  | .vfloat f => pyFloatRepr f

/-- Python `str()` of a value (on `bytes` this is the `repr`, with the
`b'...'` wrapper — not a decode). -/
def pyStr : PyVal → String
  | .vstr s => s
  | .vbytes b => ⟨'b' :: pyStrLitChars b⟩
  | .vint n => pyIntStr n
  | .vfloat f => pyFloatRepr f

/-- Python `str()` of the positional-argument tuple `args` (`repr` of each
element, singleton tuples with a trailing comma). -/
def pyStrTuple (args : List PyVal) : String :=
  match args with
  | [a] => "(" ++ pyRepr a ++ ",)"
  | _ => "(" ++ String.intercalate ", " (args.map pyRepr) ++ ")"

/-- redis-py's encoding of an accepted value into the byte payload sent to
the server (bytes as-is, text utf-8 encoded, numbers rendered in decimal). -/
def redisEncode : PyVal → String
  | .vstr s => s
  | .vbytes b => b
  | .vint n => pyIntStr n
  | .vfloat f => pyFloatRepr f

/-- The Redis database contents: string-valued keys and list-valued keys.
(Real Redis has one typed keyspace; the program keeps its key families
disjoint, so two maps are an exact model of the states it creates.) -/
structure RedisState where
  strings : String → Option String
  lists : String → List String

/-- The empty database (the state right after `flushdb`). -/
def emptyRedis : RedisState := ⟨fun _ => none, fun _ => []⟩

/-- Redis `SET`. -/
def rset (st : RedisState) (k v : String) : RedisState :=
  { st with strings := fun k' => if k' = k then some v else st.strings k' }

/-- Redis `GET`. -/
def rget (st : RedisState) (k : String) : Option String := st.strings k

/-- Redis `INCR`: parse the current value as an integer (absent counts as
0), add one, store the decimal rendering.  (On a non-integer value real
Redis raises; the program only ever increments keys it created by `INCR`.) -/
def rincr (st : RedisState) (k : String) : RedisState :=
  let cur : Int :=
    match st.strings k with
    | none => 0
    | some s => (pyIntParse s).getD 0
  rset st k (pyIntStr (cur + 1))

/-- Redis `RPUSH` of one element. -/
def rpush (st : RedisState) (k v : String) : RedisState :=
  { st with lists := fun k' => if k' = k then st.lists k ++ [v] else st.lists k' }

/-- Redis `EXISTS` (any key type). -/
def rexists (st : RedisState) (k : String) : Bool :=
  (st.strings k).isSome || !(st.lists k).isEmpty

/-- A `Cache` instance: `valid` models `isinstance(self._redis, redis.Redis)`
(false for an instance whose `_redis` attribute was replaced by a
non-client object), `redis` the database behind the client. -/
structure Cache where
  valid : Bool
  redis : RedisState

/-- `Cache.__init__`: a fresh client on a flushed database. -/
def initCache : Cache := ⟨true, emptyRedis⟩

/-- A method of `Cache`: takes the instance and the positional arguments,
returns the instance after all side effects together with the outcome
(side effects performed before a raise persist). -/
def Method : Type := Cache → List PyVal → Cache × Except PyErr PyVal

/-- The `count_calls` decorator: increment the counter keyed by the
method's qualname (when `_redis` is a recognized client), then delegate. -/
def count_calls (method : Method) (qualname : String) : Method := fun self args =>
  let self' := if self.valid then { self with redis := rincr self.redis qualname } else self
  method self' args

/-- The `call_history` decorator: append `str(args)` to the `:inputs` list,
delegate, then append the output to the `:outputs` list (each append only
when `_redis` is a recognized client; no output append when the method
raises). -/
def call_history (method : Method) (qualname : String) : Method := fun self args =>
  let key_in := qualname ++ ":inputs"
  let key_out := qualname ++ ":outputs"
  let self1 :=
    if self.valid then { self with redis := rpush self.redis key_in (pyStrTuple args) } else self
  match method self1 args with
  | (self2, .error e) => (self2, .error e)
  | (self2, .ok output) =>
    let self3 :=
      if self2.valid then { self2 with redis := rpush self2.redis key_out (redisEncode output) }
      else self2
    (self3, .ok output)

/-- The body of `Cache.store`: mint a key (the fresh uuid is the explicit
`key` parameter), `SET` the data under it, return the key.  A call with the
wrong arity raises `TypeError` before the body runs; `self._redis.set` on a
non-client raises (modelled as `AttributeError`). -/
def Cache.store (key : String) : Method := fun self args =>
  match args with
  | [data] =>
    if self.valid then
      ({ self with redis := rset self.redis key (redisEncode data) }, .ok (.vstr key))
    else (self, .error .attributeError)
  | _ => (self, .error .typeError)

/-- `Cache.store` as the class defines it: `@count_calls` outside
`@call_history` outside the body, both seeing qualname `"Cache.store"`
(preserved by `functools.wraps`). -/
def storeWrapped (key : String) : Method :=
  count_calls (call_history (Cache.store key) "Cache.store") "Cache.store"

/-- `Cache.get`: read the raw value, then `return fn(data) if fn is not
None else data`.  A transform is a Python callable receiving the raw
read result (bytes, or `None` when the key is absent). -/
def Cache.get (self : Cache) (key : String)
    (fn : Option (Option String → Except PyErr (Option PyVal))) :
    Except PyErr (Option PyVal) :=
  if self.valid then
    let data := rget self.redis key
    match fn with
    | some f => f data
    | none => .ok (data.map .vbytes)
  else .error .attributeError

/-- `Cache.get_str`: read raw via `self.get(key)`, return `None` when
absent, else `str(data)` (which on bytes is the `b'...'` repr). -/
def Cache.get_str (self : Cache) (key : String) : Except PyErr (Option String) :=
  match Cache.get self key none with
  | .error e => .error e
  | .ok none => .ok none
  | .ok (some v) => .ok (some (pyStr v))

/-- `int()` applied to a value (`none` models a raised error). -/
def pyIntOf : PyVal → Option Int
  | .vstr s => pyIntParse s
  | .vbytes b => pyIntParse b
  | .vint n => some n
  | .vfloat f => some (if f.neg then -(f.ip : Int) else (f.ip : Int))

/-- `get_int` (defined at module level in the source, dedented out of the
class body): read raw via `self.get(key)`, return `None` when absent, else
`int(data)`. -/
def get_int (self : Cache) (key : String) : Except PyErr (Option Int) :=
  match Cache.get self key none with
  | .error e => .error e
  | .ok none => .ok none
  | .ok (some v) =>
    match pyIntOf v with
    | some n => .ok (some n)
    | none => .error .valueError

/-- The transform a caller passes to recover a stored value of a given
type: nothing for bytes (the raw read), `lambda d: d.decode("utf-8")` for
text, `int` for integers, `float` for floats. -/
def decoderFor : PyVal → Option (Option String → Except PyErr (Option PyVal))
  | .vstr _ => some fun d =>
      match d with
      | some b => .ok (some (.vstr b))
      | none => .error .attributeError
  | .vbytes _ => none
  | .vint _ => some fun d =>
      match d with
      | some b =>
        match pyIntParse b with
        | some n => .ok (some (.vint n))
        | none => .error .valueError
      | none => .error .typeError
  | .vfloat _ => some fun d =>
      match d with
      | some b =>
        match pyFloatParse b with
        | some f => .ok (some (.vfloat f))
        | none => .error .valueError
      | none => .error .typeError

/-- The argument handed to `replay`: `None`, a function with no `__self__`
(not a bound method), or a method bound to a `Cache` instance with the
given qualname. -/
inductive ReplayArg where
  | noneArg
  | unbound
  | bound (self : Cache) (qualname : String)

/-- The call-count `replay` computes: 0 when the counter key does not
exist, else `int(redis_store.get(fxn_name) or 0)` (`None` and `b""` are
falsy, giving `int(0)`); `none` models the `ValueError` `int()` raises on a
non-numeric counter value. -/
def replayCount (st : RedisState) (qualname : String) : Option Int :=
  if rexists st qualname then
    match rget st qualname with
    | none => some 0
    | some s => if s = "" then some 0 else pyIntParse s
  else some 0

/-- One transcript line: `name(*<input>) -> <output>`. -/
def replayLine (qualname inp outp : String) : String :=
  qualname ++ "(*" ++ inp ++ ") -> " ++ outp

/-- The `replay` utility.  Returns the printed lines together with its
argument after execution (it performs only reads, so the argument's store
is what it was); `none` models a raised error. -/
def replay : ReplayArg → Option (List String × ReplayArg)
  | .noneArg => some ([], .noneArg)
  | .unbound => some ([], .unbound)
  | .bound self qn =>
    if self.valid then
      match replayCount self.redis qn with
      | none => none
      | some cnt =>
        some ((qn ++ " was called " ++ pyIntStr cnt ++ " times:") ::
          List.zipWith (replayLine qn) (self.redis.lists (qn ++ ":inputs"))
            (self.redis.lists (qn ++ ":outputs")),
          .bound self qn)
    else some ([], .bound self qn)

/-- Sequential invocations of a method, one argument list per call,
threading the instance through (outcomes discarded). -/
def runCalls (f : Method) : Cache → List (List PyVal) → Cache
  | c, [] => c
  | c, args :: rest => runCalls f (f c args).1 rest

/-- Sequential invocations of the decorated `Cache.store`, one fresh uuid
key and one data value per call; returns the final instance and the
outcome of every call in order. -/
def runStoreCalls : Cache → List (String × PyVal) → Cache × List (Except PyErr PyVal)
  | c, [] => (c, [])
  | c, (k, v) :: rest =>
    let r := storeWrapped k c [v]
    let rs := runStoreCalls r.1 rest
    (rs.1, r.2 :: rs.2)

/-- The combined Redis effect of one decorated `store` call on a live
client, in execution order: counter increment (outer `count_calls`
wrapper), input-tuple append (inner `call_history` wrapper), the facade
body's `SET` under the fresh key, then the append of the facade's returned
key to the outputs log. -/
def storeEffect (st : RedisState) (k : String) (v : PyVal) : RedisState :=
  rpush (rset (rpush (rincr st "Cache.store") "Cache.store:inputs" (pyStrTuple [v])) k (redisEncode v)) "Cache.store:outputs" k

/-- A database with two logged inputs but only one logged output (and no
counter key), as a partial write failure leaves it. -/
def unevenState : RedisState :=
  ⟨fun _ => none,
    fun k => if k = "Cache.store:inputs" then ["(1,)", "(2,)"]
      else if k = "Cache.store:outputs" then ["kA"] else []⟩

theorem digitVal?_digitChr {d : Nat} (hd : d < 10) :
    digitVal? (digitChr d) = some ⟨d, hd⟩ := by
  interval_cases d <;> rfl

theorem parseDigitsAux_nondigit (cs : List Char) (acc : Nat)
    (h : ∀ c cs', cs = c :: cs' → digitVal? c = none) :
    parseDigitsAux cs acc = (acc, cs) := by
  cases cs with
  | nil => rfl
  | cons c cs' =>
    simp only [parseDigitsAux, h c cs' rfl]

theorem parseDigitsAux_digits (L : List Nat) (hL : ∀ d ∈ L, d < 10)
    (rest : List Char) (acc : Nat) :
    parseDigitsAux (L.map digitChr ++ rest) acc =
      parseDigitsAux rest (L.foldl (fun a d => a * 10 + d) acc) := by
  induction L generalizing acc with
  | nil => simp
  | cons d L ih =>
    have hd : d < 10 := hL d (by simp)
    simp only [List.map_cons, List.cons_append, parseDigitsAux,
      digitVal?_digitChr hd, List.foldl_cons]
    exact ih (fun x hx => hL x (by simp [hx])) (acc * 10 + d)

theorem foldl_digits_eq (L : List Nat) (acc : Nat) :
    L.foldl (fun a d => a * 10 + d) acc =
      acc * 10 ^ L.length + Nat.ofDigits 10 L.reverse := by
  induction L generalizing acc with
  | nil => simp [Nat.ofDigits]
  | cons d L ih =>
    simp only [List.foldl_cons, List.reverse_cons, List.length_cons]
    rw [ih, Nat.ofDigits_append]
    simp [Nat.ofDigits, pow_succ]
    ring

/-- Parsing the decimal rendering of `n` followed by a non-digit suffix
consumes exactly the rendering and yields `n`. -/
theorem parseNat?_natChars (n : Nat) (rest : List Char)
    (h : ∀ c cs', rest = c :: cs' → digitVal? c = none) :
    parseNat? (natChars n ++ rest) = some (n, rest) := by
  by_cases hn : n = 0
  · subst hn
    have h0 : natChars 0 ++ rest = digitChr 0 :: rest := rfl
    rw [h0]
    simp only [parseNat?, digitVal?_digitChr (show (0:Nat) < 10 by norm_num)]
    rw [parseDigitsAux_nondigit rest 0 h]
  · have hdig : Nat.digits 10 n ≠ [] := Nat.digits_ne_nil_iff_ne_zero.mpr hn
    obtain ⟨d0, L', hrev⟩ : ∃ d0 L', (Nat.digits 10 n).reverse = d0 :: L' := by
      cases hr : (Nat.digits 10 n).reverse with
      | nil => exact absurd (by simpa using congrArg List.reverse hr) hdig
      | cons a b => exact ⟨a, b, rfl⟩
    have hlt : ∀ d ∈ (Nat.digits 10 n).reverse, d < 10 := by
      intro d hd
      exact Nat.digits_lt_base (by norm_num) (List.mem_reverse.mp hd)
    have hd0 : d0 < 10 := hlt d0 (hrev ▸ List.mem_cons_self d0 L')
    have hL' : ∀ d ∈ L', d < 10 := fun d hd => hlt d (hrev ▸ List.mem_cons_of_mem d0 hd)
    simp only [natChars, if_neg hn, hrev, List.map_cons, List.cons_append, parseNat?,
      digitVal?_digitChr hd0]
    rw [parseDigitsAux_digits L' hL' rest d0, parseDigitsAux_nondigit rest _ h]
    have hval : L'.foldl (fun a d => a * 10 + d) d0 = n := by
      have h1 : (d0 :: L').foldl (fun a d => a * 10 + d) 0 = n := by
        rw [foldl_digits_eq]
        have : (d0 :: L').reverse = Nat.digits 10 n := by
          rw [← hrev, List.reverse_reverse]
        rw [this]
        simpa using Nat.ofDigits_digits 10 n
      simpa using h1
    rw [hval]

theorem parseNatAll_natChars (n : Nat) : parseNatAll (natChars n) = some n := by
  have h := parseNat?_natChars n [] (by intro c cs' h; cases h)
  simp only [List.append_nil] at h
  simp [parseNatAll, h]

theorem natChars_head_digit (n : Nat) :
    ∃ d cs, natChars n = digitChr d :: cs ∧ d < 10 := by
  by_cases hn : n = 0
  · exact ⟨0, [], by simp [natChars, hn], by norm_num⟩
  · have hdig : Nat.digits 10 n ≠ [] := Nat.digits_ne_nil_iff_ne_zero.mpr hn
    cases hr : (Nat.digits 10 n).reverse with
    | nil => exact absurd (by simpa using congrArg List.reverse hr) hdig
    | cons d0 L' =>
      refine ⟨d0, L'.map digitChr, by simp [natChars, hn, hr], ?_⟩
      exact Nat.digits_lt_base (by norm_num)
        (List.mem_reverse.mp (hr ▸ List.mem_cons_self d0 L'))

theorem digitChr_ne_sign {d : Nat} (hd : d < 10) :
    digitChr d ≠ '-' ∧ digitChr d ≠ '+' := by
  interval_cases d <;> exact ⟨by decide, by decide⟩

theorem parseFrac_map (L : List (Fin 10)) :
    parseFrac (L.map (fun d => digitChr d.val)) = some L := by
  induction L with
  | nil => rfl
  | cons d L ih =>
    simp only [List.map_cons, parseFrac, digitVal?_digitChr d.isLt, ih, Option.map]

theorem parseUnsignedFloat_floatChars (ip : Nat) (frac : List (Fin 10)) (neg : Bool) :
    parseUnsignedFloat (natChars ip ++ '.' :: frac.map (fun d => digitChr d.val)) neg =
      some ⟨neg, ip, frac⟩ := by
  rw [parseUnsignedFloat]
  rw [parseNat?_natChars ip _ (by intro c cs' h; cases h; rfl)]
  simp [parseFrac_map]

/-- `float()` inverts `repr()` on every finite float. -/
theorem pyFloatParse_pyFloatRepr (f : PyFloat) : pyFloatParse (pyFloatRepr f) = some f := by
  obtain ⟨neg, ip, frac⟩ := f
  cases neg with
  | true =>
    have h : pyFloatRepr ⟨true, ip, frac⟩ =
        ⟨'-' :: (natChars ip ++ '.' :: frac.map (fun d => digitChr d.val))⟩ := by
      simp [pyFloatRepr, floatChars]
    rw [h, pyFloatParse]
    simp only [if_pos rfl]
    exact parseUnsignedFloat_floatChars ip frac true
  | false =>
    obtain ⟨d, cs, hchars, hd⟩ := natChars_head_digit ip
    obtain ⟨hne1, hne2⟩ := digitChr_ne_sign hd
    have h : pyFloatRepr ⟨false, ip, frac⟩ =
        ⟨digitChr d :: (cs ++ '.' :: frac.map (fun dg => digitChr dg.val))⟩ := by
      simp [pyFloatRepr, floatChars, hchars]
    rw [h, pyFloatParse]
    simp only [if_neg hne1, if_neg hne2]
    have h2 : digitChr d :: (cs ++ '.' :: frac.map (fun dg => digitChr dg.val)) =
        natChars ip ++ '.' :: frac.map (fun dg => digitChr dg.val) := by
      rw [hchars]; rfl
    rw [h2]
    exact parseUnsignedFloat_floatChars ip frac false

theorem pyIntParse_mk_cons (c : Char) (cs : List Char) :
    pyIntParse ⟨c :: cs⟩ =
      (if c = '-' then (parseNatAll cs).map (fun n => -(n : Int))
       else if c = '+' then (parseNatAll cs).map (fun n => (n : Int))
       else (parseNatAll (c :: cs)).map (fun n => (n : Int))) := rfl

/-- `int()` inverts `str()` on every integer (`int(str(n)) == n`). -/
theorem pyIntParse_pyIntStr (n : Int) : pyIntParse (pyIntStr n) = some n := by
  by_cases hn : n < 0
  · rw [pyIntStr, if_pos hn, pyIntParse_mk_cons, if_pos rfl, parseNatAll_natChars]
    have h1 : -((n.natAbs : Nat) : Int) = n := by omega
    show some (-((n.natAbs : Nat) : Int)) = some n
    rw [h1]
  · obtain ⟨d, cs, hchars, hd⟩ := natChars_head_digit n.toNat
    obtain ⟨hne1, hne2⟩ := digitChr_ne_sign hd
    rw [pyIntStr, if_neg hn]
    rw [show (⟨natChars n.toNat⟩ : String) = ⟨digitChr d :: cs⟩ by rw [hchars]]
    rw [pyIntParse_mk_cons, if_neg hne1, if_neg hne2, ← hchars, parseNatAll_natChars]
    have h1 : ((n.toNat : Nat) : Int) = n := by omega
    show some ((n.toNat : Nat) : Int) = some n
    rw [h1]

theorem rset_lists (st : RedisState) (k v : String) : (rset st k v).lists = st.lists := rfl

theorem rincr_lists (st : RedisState) (k : String) : (rincr st k).lists = st.lists := rfl

theorem rpush_strings (st : RedisState) (k v : String) :
    (rpush st k v).strings = st.strings := rfl

theorem rpush_lists_self (st : RedisState) (k v : String) :
    (rpush st k v).lists k = st.lists k ++ [v] := by
  simp [rpush]

theorem rpush_lists_of_ne (st : RedisState) (k v k' : String) (h : k' ≠ k) :
    (rpush st k v).lists k' = st.lists k' := by
  simp [rpush, h]

theorem rset_strings_self (st : RedisState) (k v : String) :
    (rset st k v).strings k = some v := by
  simp [rset]

theorem rset_strings_of_ne (st : RedisState) (k v k' : String) (h : k' ≠ k) :
    (rset st k v).strings k' = st.strings k' := by
  simp [rset, h]

theorem rincr_strings_of_ne (st : RedisState) (k k' : String) (h : k' ≠ k) :
    (rincr st k).strings k' = st.strings k' := by
  simp [rincr, rset, h]

/-- One increment on an absent counter stores `"1"`, on a stored decimal
`n` stores `n + 1`. -/
theorem rincr_strings_self (st : RedisState) (k : String) :
    (rincr st k).strings k =
      some (pyIntStr ((match st.strings k with
        | none => (0 : Int)
        | some s => (pyIntParse s).getD 0) + 1)) := by
  simp [rincr, rset]

theorem storeWrapped_eq (c : Cache) (k : String) (v : PyVal) (hv : c.valid = true) :
    storeWrapped k c [v] = ({ c with redis := storeEffect c.redis k v }, .ok (.vstr k)) := by
  obtain ⟨b, st⟩ := c
  cases b with
  | false => cases hv
  | true => rfl

theorem inputs_outputs_key_ne : ("Cache.store:inputs" : String) ≠ "Cache.store:outputs" := by
  decide

theorem storeEffect_lists_inputs (st : RedisState) (k : String) (v : PyVal) :
    (storeEffect st k v).lists "Cache.store:inputs" =
      st.lists "Cache.store:inputs" ++ [pyStrTuple [v]] := by
  rw [storeEffect, rpush_lists_of_ne _ _ _ _ inputs_outputs_key_ne, rset_lists,
    rpush_lists_self, rincr_lists]

theorem storeEffect_lists_outputs (st : RedisState) (k : String) (v : PyVal) :
    (storeEffect st k v).lists "Cache.store:outputs" =
      st.lists "Cache.store:outputs" ++ [k] := by
  rw [storeEffect, rpush_lists_self, rset_lists,
    rpush_lists_of_ne _ _ _ _ (Ne.symm inputs_outputs_key_ne), rincr_lists]

/-- The effect of `N` decorated `store` calls on the two history logs and
on the outcomes, from any starting instance on a live client. -/
theorem runStoreCalls_spec (pairs : List (String × PyVal)) (c : Cache) (hv : c.valid = true) :
    (runStoreCalls c pairs).1.valid = true ∧
    (runStoreCalls c pairs).1.redis.lists "Cache.store:inputs" =
      c.redis.lists "Cache.store:inputs" ++ pairs.map (fun p => pyStrTuple [p.2]) ∧
    (runStoreCalls c pairs).1.redis.lists "Cache.store:outputs" =
      c.redis.lists "Cache.store:outputs" ++ pairs.map (fun p => p.1) ∧
    (runStoreCalls c pairs).2 = pairs.map (fun p => Except.ok (PyVal.vstr p.1)) := by
  induction pairs generalizing c with
  | nil => simp [runStoreCalls, hv]
  | cons p rest ih =>
    obtain ⟨k, v⟩ := p
    have hstep : storeWrapped k c [v] =
        ({ c with redis := storeEffect c.redis k v }, .ok (.vstr k)) :=
      storeWrapped_eq c k v hv
    simp only [runStoreCalls, hstep]
    obtain ⟨ihv, ihin, ihout, ihres⟩ := ih { c with redis := storeEffect c.redis k v } hv
    refine ⟨ihv, ?_, ?_, ?_⟩
    · rw [ihin]
      show (storeEffect c.redis k v).lists "Cache.store:inputs" ++ _ = _
      rw [storeEffect_lists_inputs, List.map_cons, List.append_assoc]
      rfl
    · rw [ihout]
      show (storeEffect c.redis k v).lists "Cache.store:outputs" ++ _ = _
      rw [storeEffect_lists_outputs, List.map_cons, List.append_assoc]
      rfl
    · rw [List.map_cons, ← ihres]

/-- C1: after `N` successful sequential invocations of the decorated
`store` (fresh uuid key `p.1` and stored datum `p.2` for each call,
starting from a live client whose history logs are empty), every call
succeeds returning its fresh key, both history logs have length `N`, the
`i`-th Inputs entry is `str(args)` of the `i`-th call's positional
arguments, and the `i`-th Outputs entry is exactly the key the `i`-th call
returned. -/
theorem history_alignment (pairs : List (String × PyVal)) (c : Cache)
    (hv : c.valid = true)
    (hin : c.redis.lists "Cache.store:inputs" = [])
    (hout : c.redis.lists "Cache.store:outputs" = []) :
    (runStoreCalls c pairs).2 = pairs.map (fun p => Except.ok (PyVal.vstr p.1)) ∧
    (runStoreCalls c pairs).1.redis.lists "Cache.store:inputs" =
      pairs.map (fun p => pyStrTuple [p.2]) ∧
    (runStoreCalls c pairs).1.redis.lists "Cache.store:outputs" =
      pairs.map (fun p => p.1) ∧
    ((runStoreCalls c pairs).1.redis.lists "Cache.store:inputs").length = pairs.length ∧
    ((runStoreCalls c pairs).1.redis.lists "Cache.store:outputs").length = pairs.length := by
  obtain ⟨-, h1, h2, h3⟩ := runStoreCalls_spec pairs c hv
  rw [hin] at h1
  rw [hout] at h2
  simp only [List.nil_append] at h1 h2
  exact ⟨h3, h1, h2, by rw [h1]; simp, by rw [h2]; simp⟩

/-- Witness for C1: two stores on a fresh cache log exactly the two
argument tuples and the two returned keys, in order. -/
theorem history_alignment_witness :
    (runStoreCalls initCache [("k1", PyVal.vstr "foo"), ("k2", PyVal.vstr "bar")]).2 =
      [Except.ok (PyVal.vstr "k1"), Except.ok (PyVal.vstr "k2")] ∧
    (runStoreCalls initCache
        [("k1", PyVal.vstr "foo"), ("k2", PyVal.vstr "bar")]).1.redis.lists
        "Cache.store:inputs" = [pyStrTuple [PyVal.vstr "foo"], pyStrTuple [PyVal.vstr "bar"]] ∧
    (runStoreCalls initCache
        [("k1", PyVal.vstr "foo"), ("k2", PyVal.vstr "bar")]).1.redis.lists
        "Cache.store:outputs" = ["k1", "k2"] ∧
    ((runStoreCalls initCache
        [("k1", PyVal.vstr "foo"), ("k2", PyVal.vstr "bar")]).1.redis.lists
        "Cache.store:inputs").length = 2 ∧
    ((runStoreCalls initCache
        [("k1", PyVal.vstr "foo"), ("k2", PyVal.vstr "bar")]).1.redis.lists
        "Cache.store:outputs").length = 2 :=
  history_alignment [("k1", PyVal.vstr "foo"), ("k2", PyVal.vstr "bar")] initCache rfl rfl rfl

/-- C6: the decorated `store` is `count_calls` outermost over
`call_history` over the facade body, and on a live client one call
performs, in order: the counter increment, the input-tuple append, the
facade's `SET`, and the append of the facade call's return value (the
fresh key) to the outputs log — which is also the call's return value. -/
theorem store_composition_order (c : Cache) (k : String) (v : PyVal) (hv : c.valid = true) :
    storeWrapped k c [v] =
      count_calls (call_history (Cache.store k) "Cache.store") "Cache.store" c [v] ∧
    storeWrapped k c [v] = ({ c with redis := storeEffect c.redis k v }, .ok (.vstr k)) :=
  ⟨rfl, storeWrapped_eq c k v hv⟩

/-- Witness for C6: the composition order evaluated on a fresh cache. -/
theorem store_composition_order_witness :
    storeWrapped "k1" initCache [PyVal.vstr "foo"] =
      count_calls (call_history (Cache.store "k1") "Cache.store") "Cache.store"
        initCache [PyVal.vstr "foo"] ∧
    storeWrapped "k1" initCache [PyVal.vstr "foo"] =
      ({ initCache with redis := storeEffect initCache.redis "k1" (PyVal.vstr "foo") },
        .ok (.vstr "k1")) :=
  store_composition_order initCache "k1" (PyVal.vstr "foo") rfl

theorem rincr_of_none (st : RedisState) (k : String) (h : st.strings k = none) :
    (rincr st k).strings k = some (pyIntStr 1) := by
  simp only [rincr_strings_self, h]
  norm_num

theorem rincr_of_pyIntStr (st : RedisState) (k : String) (i : Int)
    (h : st.strings k = some (pyIntStr i)) :
    (rincr st k).strings k = some (pyIntStr (i + 1)) := by
  simp only [rincr_strings_self, h, pyIntParse_pyIntStr, Option.getD_some]

/-- Running `N` further calls of a `count_calls`-wrapped method that never
touches the counter key itself advances a counter holding `i` to `i + N`. -/
theorem runCalls_counter (m : Method) (qualname : String)
    (hm : ∀ s args, (m s args).1.redis.strings qualname = s.redis.strings qualname ∧
      (m s args).1.valid = s.valid) :
    ∀ (argss : List (List PyVal)) (c : Cache), c.valid = true →
      ∀ i : Int, c.redis.strings qualname = some (pyIntStr i) →
        (runCalls (count_calls m qualname) c argss).redis.strings qualname =
          some (pyIntStr (i + argss.length)) := by
  intro argss
  induction argss with
  | nil =>
    intro c _ i hc
    simpa [runCalls] using hc
  | cons args rest ih =>
    intro c hv i hc
    have hstep : count_calls m qualname c args =
        m { c with redis := rincr c.redis qualname } args := by
      simp [count_calls, hv]
    have hcnt : (count_calls m qualname c args).1.redis.strings qualname =
        some (pyIntStr (i + 1)) := by
      rw [hstep, (hm _ args).1]
      exact rincr_of_pyIntStr c.redis qualname i hc
    have hval : (count_calls m qualname c args).1.valid = true := by
      rw [hstep, (hm _ args).2]
      exact hv
    have hrun := ih (count_calls m qualname c args).1 hval (i + 1) hcnt
    rw [runCalls, hrun]
    have harg : i + 1 + (rest.length : Int) = i + ((args :: rest).length : Int) := by
      simp only [List.length_cons]
      push_cast
      ring
    rw [harg]

/-- C4: a `count_calls`-wrapped method on a live client performs exactly
one counter increment, before delegating, and returns the inner method's
outcome unchanged (so the increment is independent of that outcome); after
`N ≥ 1` sequential invocations starting from an absent counter, with the
inner method never touching the counter key or the client handle, the
counter holds exactly `N`. -/
theorem counter_monotonicity (m : Method) (qualname : String) (c : Cache)
    (argss : List (List PyVal))
    (hm : ∀ s args, (m s args).1.redis.strings qualname = s.redis.strings qualname ∧
      (m s args).1.valid = s.valid)
    (hv : c.valid = true)
    (hfresh : c.redis.strings qualname = none)
    (hne : argss ≠ []) :
    (∀ args, count_calls m qualname c args =
      m { c with redis := rincr c.redis qualname } args) ∧
    (runCalls (count_calls m qualname) c argss).redis.strings qualname =
      some (pyIntStr argss.length) := by
  constructor
  · intro args
    simp [count_calls, hv]
  · cases argss with
    | nil => exact absurd rfl hne
    | cons args rest =>
      have hstep : count_calls m qualname c args =
          m { c with redis := rincr c.redis qualname } args := by
        simp [count_calls, hv]
      have hcnt : (count_calls m qualname c args).1.redis.strings qualname =
          some (pyIntStr 1) := by
        rw [hstep, (hm _ args).1]
        exact rincr_of_none c.redis qualname hfresh
      have hval : (count_calls m qualname c args).1.valid = true := by
        rw [hstep, (hm _ args).2]
        exact hv
      have hrun := runCalls_counter m qualname hm rest (count_calls m qualname c args).1 hval 1 hcnt
      rw [runCalls, hrun]
      have harg : 1 + (rest.length : Int) = ((args :: rest).length : Int) := by
        simp only [List.length_cons]
        push_cast
        ring
      rw [harg]

/-- Witness for C4: two invocations of a wrapped no-op method on a fresh
cache leave the counter at `2`. -/
theorem counter_monotonicity_witness :
    (runCalls (count_calls (fun s _ => (s, Except.ok (PyVal.vint 0))) "Cache.store")
        initCache [[], []]).redis.strings "Cache.store" = some (pyIntStr 2) :=
  (counter_monotonicity (fun s _ => (s, Except.ok (PyVal.vint 0))) "Cache.store" initCache
    [[], []] (fun _ _ => ⟨rfl, rfl⟩) rfl rfl (by simp)).2

/-- C5: when the inner method raises on a live client, `call_history` has
already appended the input tuple, appends nothing to the outputs log
(leaving it strictly shorter than the inputs log when they were aligned
before the call), and propagates the failure and the inner method's state
unchanged. -/
theorem history_failure_truncation (m : Method) (qualname : String) (c : Cache)
    (args : List PyVal) (s2 : Cache) (e : PyErr)
    (hv : c.valid = true)
    (hm : m { c with redis := rpush c.redis (qualname ++ ":inputs") (pyStrTuple args) } args
        = (s2, .error e))
    (hin : s2.redis.lists (qualname ++ ":inputs") =
      c.redis.lists (qualname ++ ":inputs") ++ [pyStrTuple args])
    (hout : s2.redis.lists (qualname ++ ":outputs") = c.redis.lists (qualname ++ ":outputs"))
    (hlen : (c.redis.lists (qualname ++ ":outputs")).length =
      (c.redis.lists (qualname ++ ":inputs")).length) :
    call_history m qualname c args = (s2, .error e) ∧
    ((call_history m qualname c args).1.redis.lists (qualname ++ ":outputs")).length <
      ((call_history m qualname c args).1.redis.lists (qualname ++ ":inputs")).length := by
  have heq : call_history m qualname c args = (s2, .error e) := by
    obtain ⟨b, st⟩ := c
    have hb : b = true := hv
    subst hb
    simp [call_history, hm]
  refine ⟨heq, ?_⟩
  rw [heq]
  simp only [hin, hout, List.length_append, List.length_singleton]
  omega

/-- Witness for C5: a method that always raises, called through
`call_history` on a fresh cache, leaves one input entry and no output
entry. -/
theorem history_failure_truncation_witness :
    call_history (fun s _ => (s, Except.error PyErr.valueError)) "Cache.store" initCache [] =
      ({ initCache with redis := rpush initCache.redis ("Cache.store" ++ ":inputs") (pyStrTuple []) }, .error .valueError) ∧
    ((call_history (fun s _ => (s, Except.error PyErr.valueError)) "Cache.store" initCache
        []).1.redis.lists ("Cache.store" ++ ":outputs")).length <
      ((call_history (fun s _ => (s, Except.error PyErr.valueError)) "Cache.store" initCache
        []).1.redis.lists ("Cache.store" ++ ":inputs")).length :=
  history_failure_truncation (fun s _ => (s, Except.error PyErr.valueError)) "Cache.store"
    initCache [] { initCache with redis := rpush initCache.redis ("Cache.store" ++ ":inputs") (pyStrTuple []) }
    PyErr.valueError rfl rfl (by simp [rpush, initCache, emptyRedis]) (by rfl) (by rfl)

/-- C10: on an instance whose `_redis` attribute is not a `redis.Redis`
client, both wrappers perform no store writes at all and behave exactly as
a direct call of the inner method with the original arguments (provided
the inner method does not itself install a recognized client on the
instance): the result, state and any failure pass through unchanged. -/
theorem wrappers_skip_when_invalid (m : Method) (qualname : String) (c : Cache)
    (args : List PyVal)
    (hv : c.valid = false)
    (hpres : (m c args).1.valid = false) :
    count_calls m qualname c args = m c args ∧
    call_history m qualname c args = m c args := by
  constructor
  · simp [count_calls, hv]
  · cases hr : m c args with
    | mk s2 r =>
      cases r with
      | error e => simp [call_history, hv, hr]
      | ok o =>
        have h2 : s2.valid = false := by
          have := hpres
          rw [hr] at this
          exact this
        simp [call_history, hv, hr, h2]

/-- Witness for C10: a no-op method through both wrappers on an instance
with a foreign `_redis` attribute. -/
theorem wrappers_skip_when_invalid_witness :
    count_calls (fun s _ => (s, Except.ok (PyVal.vint 0))) "Cache.store"
        ⟨false, emptyRedis⟩ [] =
      (fun (s : Cache) (_ : List PyVal) => (s, Except.ok (PyVal.vint 0)))
        ⟨false, emptyRedis⟩ [] ∧
    call_history (fun s _ => (s, Except.ok (PyVal.vint 0))) "Cache.store"
        ⟨false, emptyRedis⟩ [] =
      (fun (s : Cache) (_ : List PyVal) => (s, Except.ok (PyVal.vint 0)))
        ⟨false, emptyRedis⟩ [] :=
  wrappers_skip_when_invalid (fun s _ => (s, Except.ok (PyVal.vint 0))) "Cache.store"
    ⟨false, emptyRedis⟩ [] rfl rfl

/-- C2 counterexample: on an absent key the transform IS invoked — `get`
returns `fn(data)` whenever `fn` is supplied, and the probe transform can
observe that it received the absent marker; the result is the transform's
output, not the absent marker the claim requires. -/
theorem get_skips_transform_on_absent_counterexample :
    rget initCache.redis "missing" = none ∧
    Cache.get initCache "missing"
        (some fun d => Except.ok (some (PyVal.vbytes (if d = none then "ABSENT" else "PRESENT")))) =
      Except.ok (some (PyVal.vbytes "ABSENT")) ∧
    some (PyVal.vbytes "ABSENT") ≠ (none : Option PyVal) :=
  ⟨rfl, rfl, by simp⟩

/-- C2 (amended): on a live client, when the raw value at the key is
absent, `get` with a supplied transform invokes the transform on the
absent marker and returns the transform's result (it does not skip the
transform and does not return the absent marker itself). -/
theorem get_transform_applied_to_absent (c : Cache) (key : String)
    (f : Option String → Except PyErr (Option PyVal))
    (hv : c.valid = true) (habs : rget c.redis key = none) :
    Cache.get c key (some f) = f none := by
  obtain ⟨bb, st⟩ := c
  have hb : bb = true := hv
  subst hb
  simp [Cache.get, habs]

/-- Witness for the amended C2. -/
theorem get_transform_applied_to_absent_witness :
    Cache.get initCache "missing" (some fun _ => Except.ok (some (PyVal.vint 7))) =
      (fun (_ : Option String) => Except.ok (some (PyVal.vint 7))) none :=
  get_transform_applied_to_absent initCache "missing"
    (fun _ => Except.ok (some (PyVal.vint 7))) rfl rfl

/-- C3: storing any supported value through the decorated `store` and
retrieving the returned key with the caller-side transform for that type
(raw read for bytes, utf-8 decode for text, `int` for integers, `float`
for floats) yields the original value exactly. -/
theorem store_get_roundtrip (c : Cache) (k : String) (v : PyVal) (hv : c.valid = true) :
    (storeWrapped k c [v]).2 = Except.ok (PyVal.vstr k) ∧
    Cache.get (storeWrapped k c [v]).1 k (decoderFor v) = Except.ok (some v) := by
  obtain ⟨bb, st⟩ := c
  have hb : bb = true := hv
  subst hb
  rw [storeWrapped_eq ⟨true, st⟩ k v rfl]
  have hstr : (storeEffect st k v).strings k = some (redisEncode v) := by
    rw [storeEffect, rpush_strings]
    exact rset_strings_self _ _ _
  refine ⟨rfl, ?_⟩
  cases v with
  | vstr s => simp [Cache.get, decoderFor, rget, hstr, redisEncode]
  | vbytes b => simp [Cache.get, decoderFor, rget, hstr, redisEncode]
  | vint n => simp [Cache.get, decoderFor, rget, hstr, redisEncode, pyIntParse_pyIntStr]
  | vfloat f => simp [Cache.get, decoderFor, rget, hstr, redisEncode, pyFloatParse_pyFloatRepr]

/-- Witness for C3: a negative integer round-trips through store and the
`int` transform. -/
theorem store_get_roundtrip_witness :
    (storeWrapped "k1" initCache [PyVal.vint (-42)]).2 = Except.ok (PyVal.vstr "k1") ∧
    Cache.get (storeWrapped "k1" initCache [PyVal.vint (-42)]).1 "k1"
        (decoderFor (PyVal.vint (-42))) = Except.ok (some (PyVal.vint (-42))) :=
  store_get_roundtrip initCache "k1" (PyVal.vint (-42)) rfl

theorem mk_ne_empty_of_cons (c : Char) (cs : List Char) : (⟨c :: cs⟩ : String) ≠ "" := by
  intro h
  have h2 : c :: cs = ([] : List Char) := congrArg String.data h
  exact List.cons_ne_nil c cs h2

theorem pyIntStr_ne_empty (n : Int) : pyIntStr n ≠ "" := by
  rw [pyIntStr]
  split
  · exact mk_ne_empty_of_cons _ _
  · obtain ⟨d, cs, hchars, -⟩ := natChars_head_digit n.toNat
    rw [hchars]
    exact mk_ne_empty_of_cons _ _

theorem replayCount_of_none (st : RedisState) (qn : String) (h : st.strings qn = none) :
    replayCount st qn = some 0 := by
  rw [replayCount]
  split
  · simp [rget, h]
  · rfl

theorem replayCount_of_pyIntStr (st : RedisState) (qn : String) (n : Int)
    (h : st.strings qn = some (pyIntStr n)) :
    replayCount st qn = some n := by
  have hex : rexists st qn = true := by simp [rexists, h]
  rw [replayCount, if_pos hex]
  simp [rget, h, pyIntStr_ne_empty n, pyIntParse_pyIntStr]

/-- C7: on a live client whose counter key is absent or holds a decimal
integer, `replay` completes without failure, printing the header and then
exactly `min(len(Inputs), len(Outputs))` paired lines, pairing index `i`
of the Inputs log with index `i` of the Outputs log in stored order and
silently dropping the longer log's unmatched tail. -/
theorem replay_pairs_min (st : RedisState) (qn : String)
    (hc : st.strings qn = none ∨ ∃ n : Int, st.strings qn = some (pyIntStr n)) :
    ∃ cnt : Int,
      replay (.bound ⟨true, st⟩ qn) =
        some ((qn ++ " was called " ++ pyIntStr cnt ++ " times:") ::
          List.zipWith (replayLine qn) (st.lists (qn ++ ":inputs"))
            (st.lists (qn ++ ":outputs")),
          .bound ⟨true, st⟩ qn) ∧
      (List.zipWith (replayLine qn) (st.lists (qn ++ ":inputs"))
          (st.lists (qn ++ ":outputs"))).length =
        min (st.lists (qn ++ ":inputs")).length (st.lists (qn ++ ":outputs")).length := by
  cases hc with
  | inl h =>
    refine ⟨0, ?_, ?_⟩
    · simp [replay, replayCount_of_none st qn h]
    · rw [List.length_zipWith]
  | inr h =>
    obtain ⟨n, h⟩ := h
    refine ⟨n, ?_, ?_⟩
    · simp [replay, replayCount_of_pyIntStr st qn n h]
    · rw [List.length_zipWith]

/-- Witness for C7: on logs of lengths 2 and 1, replay yields the header
plus exactly one paired line. -/
theorem replay_pairs_min_witness :
    ∃ cnt : Int,
      replay (.bound ⟨true, unevenState⟩ "Cache.store") =
        some (("Cache.store" ++ " was called " ++ pyIntStr cnt ++ " times:") ::
          List.zipWith (replayLine "Cache.store")
            (unevenState.lists ("Cache.store" ++ ":inputs"))
            (unevenState.lists ("Cache.store" ++ ":outputs")),
          .bound ⟨true, unevenState⟩ "Cache.store") ∧
      (List.zipWith (replayLine "Cache.store")
          (unevenState.lists ("Cache.store" ++ ":inputs"))
          (unevenState.lists ("Cache.store" ++ ":outputs"))).length =
        min (unevenState.lists ("Cache.store" ++ ":inputs")).length
          (unevenState.lists ("Cache.store" ++ ":outputs")).length :=
  replay_pairs_min unevenState "Cache.store" (Or.inl rfl)

/-- C8: `replay` mutates nothing — whenever it completes its argument
(including the bound instance's database) comes back exactly as given —
and on a handle that is `None`, is not a bound method, or is bound to an
instance without a recognized client, it completes with no output lines
and no error. -/
theorem replay_readonly_noop :
    (∀ (arg : ReplayArg) (out : List String × ReplayArg), replay arg = some out → out.2 = arg) ∧
    replay .noneArg = some ([], .noneArg) ∧
    replay .unbound = some ([], .unbound) ∧
    (∀ (c : Cache) (qn : String), c.valid = false →
      replay (.bound c qn) = some ([], .bound c qn)) := by
  refine ⟨?_, rfl, rfl, ?_⟩
  · intro arg out h
    cases arg with
    | noneArg =>
      injection h with h1
      subst h1
      rfl
    | unbound =>
      injection h with h1
      subst h1
      rfl
    | bound c qn =>
      simp only [replay] at h
      by_cases hv : c.valid = true
      · rw [if_pos hv] at h
        cases hcnt : replayCount c.redis qn with
        | none =>
          rw [hcnt] at h
          cases h
        | some cnt =>
          rw [hcnt] at h
          injection h with h1
          subst h1
          rfl
      · rw [if_neg hv] at h
        injection h with h1
        subst h1
        rfl
  · intro c qn hv
    simp [replay, hv]

/-- Witness for C8: replay on an instance with a foreign `_redis`
attribute is a silent no-op. -/
theorem replay_readonly_noop_witness :
    replay (.bound ⟨false, emptyRedis⟩ "Cache.store") =
      some ([], .bound ⟨false, emptyRedis⟩ "Cache.store") :=
  replay_readonly_noop.2.2.2 ⟨false, emptyRedis⟩ "Cache.store" rfl

/-- C9 counterexample: with the bytes `b"foo"` stored under `"k"`, the
text variant returns `"b'foo'"` — Python `str()` of the bytes, i.e. their
repr — not the utf-8 decode `"foo"` the claim describes. -/
theorem get_str_decode_counterexample :
    Cache.get_str ⟨true, rset emptyRedis "k" "foo"⟩ "k" = Except.ok (some "b'foo'") ∧
    ("b'foo'" : String) ≠ "foo" :=
  ⟨rfl, by decide⟩

/-- C9 (amended): both typed variants take the cache instance as their
first argument (`get_str` as a method, `get_int` as a module-level
function) and return absent when the raw value is absent; otherwise the
integer variant numerically parses the raw bytes (raising `ValueError` on
non-numeric bytes), while the text variant applies Python `str()` to the
raw bytes — producing their `b'...'` repr, not a utf-8 decode. -/
theorem typed_variants (c : Cache) (key : String) (hv : c.valid = true) :
    (rget c.redis key = none →
      Cache.get_str c key = Except.ok none ∧ get_int c key = Except.ok none) ∧
    (∀ b : String, rget c.redis key = some b →
      Cache.get_str c key = Except.ok (some (pyStr (PyVal.vbytes b))) ∧
      ((∀ n : Int, pyIntParse b = some n → get_int c key = Except.ok (some n)) ∧
        (pyIntParse b = none → get_int c key = Except.error PyErr.valueError))) := by
  obtain ⟨bb, st⟩ := c
  have hbb : bb = true := hv
  subst hbb
  refine ⟨fun h => ?_, fun b hb2 => ?_⟩
  · have hget : Cache.get ⟨true, st⟩ key none = Except.ok none := by
      simp [Cache.get, h]
    exact ⟨by simp [Cache.get_str, hget], by simp [get_int, hget]⟩
  · have hget : Cache.get ⟨true, st⟩ key none = Except.ok (some (PyVal.vbytes b)) := by
      simp [Cache.get, hb2]
    refine ⟨by simp [Cache.get_str, hget], fun n hn => ?_, fun hn => ?_⟩
    · simp [get_int, hget, pyIntOf, hn]
    · simp [get_int, hget, pyIntOf, hn]

/-- Witness for the amended C9: both variants return absent on a missing
key of a fresh cache. -/
theorem typed_variants_witness :
    Cache.get_str initCache "missing" = Except.ok none ∧
    get_int initCache "missing" = Except.ok none :=
  (typed_variants initCache "missing" rfl).1 rfl
